import Mathlib

/-!
Verification of the read error-correction core (src/src/Algorithm/ErrorCorrectProcess.cpp).

Sequences are `List Char`; the external services (FM-index, suffix-array
sample, overlap service, quality-threshold table, multi-overlap pile) are
oracle function parameters, following the interface list of spec §6. All line
references below are into src/src/Algorithm/ErrorCorrectProcess.cpp.
-/

namespace SGA

/-- Modelled from the spec: the correction-result record (§3). The struct
definition lives in the header, which is not under src; the QC flags and the
overlap counters start out false / 0 (§4.9 relies on a legacy-overlap result
carrying kmer_qc = false without ever assigning it). -/
structure ErrorCorrectResult where
  correctSequence : List Char
  kmerQC : Bool := false
  overlapQC : Bool := false
  num_prefix_overlaps : Nat := 0
  num_suffix_overlaps : Nat := 0
deriving DecidableEq

/-- The algorithm selector (ECA_HYBRID / ECA_KMER / ECA_OVERLAP). -/
inductive ECAlgorithm where
  | hybrid
  | kmer
  | overlap
deriving DecidableEq

/-- The correction parameters copied into the process (spec §3). conflictCutoff
and printOverlaps do not influence any modelled observable but are kept as
fields of the copied record. -/
structure ErrorCorrectParameters where
  algorithm : ECAlgorithm
  kmerLength : Nat
  numKmerRounds : Nat
  numOverlapRounds : Nat
  minOverlap : Nat
  minIdentity : ℚ
  conflictCutoff : Nat
  depthFilter : Nat
  printOverlaps : Bool
deriving DecidableEq

/-- The ErrorCorrectProcess constructor (lines 20-23): it copies the supplied
parameters and then unconditionally overwrites depthFilter with 10000. -/
def mkErrorCorrectProcess (params : ErrorCorrectParameters) : ErrorCorrectParameters :=
  { params with depthFilter := 10000 }

/-- The k-mer of seq starting at position i, i.e. seq.substr(i, k). -/
def kmerAt (seq : List Char) (i k : Nat) : List Char :=
  (seq.drop i).take k

/-- Modelled from the spec: the FM-index count service and the
quality-threshold table (§6); BWTAlgorithms::countSequenceOccurrencesWithCache
and CorrectionThresholds::getRequiredSupport are not under src, so both are
opaque oracle functions. The per-read k-mer count cache (§4.2) is pure
memoization of count and is dropped. -/
structure KmerOracle where
  count : List Char → Nat
  requiredSupport : Nat → Nat

/-- minPhredVector entry (lines 382-394): the minimum phred score over the k
bases of the k-mer starting at i; phredOf is getPhredScore of the ORIGINAL
read, so the vector is fixed across rounds. For k ≥ 1 this equals the window
minimum computed by the source. -/
def minPhredAt (phredOf : Nat → Nat) (k i : Nat) : Nat :=
  ((List.range k).map fun d => phredOf (i + d)).foldr min (phredOf i)

/-- Modelled from the spec: the DNA alphabet in iteration order A,C,G,T
(§4.3.1); ALPHABET / DNA_ALPHABET live outside src. -/
def alphabetList : List Char := ['A', 'C', 'G', 'T']

/-- Outcome of the alternative-base loop inside attemptKmerCorrection: abort is
the early `return false` taken on a second strict improvement (line 529),
otherwise the final bestCount / bestBase pair. -/
inductive ScanOutcome where
  | abort
  | best (bestCount : Nat) (bestBase : Char)
deriving DecidableEq

/-- The loop over alternative bases of attemptKmerCorrection (lines 514-534):
skip the original base; on count > bestCount && count >= minCount either
return false when a best base was already chosen, or adopt the new best. -/
def scanAlts (count : List Char → Nat) (kmer : List Char) (baseIdx : Nat) (orig : Char)
    (minCount : Nat) : List Char → Nat → Char → ScanOutcome
  | [], bc, bb => .best bc bb
  | c :: rest, bc, bb =>
    if c = orig then scanAlts count kmer baseIdx orig minCount rest bc bb
    else
      if bc < count (kmer.set baseIdx c) ∧ minCount ≤ count (kmer.set baseIdx c) then
        if bb ≠ '$' then .abort
        else scanAlts count kmer baseIdx orig minCount rest (count (kmer.set baseIdx c)) c
      else scanAlts count kmer baseIdx orig minCount rest bc bb

/-- attemptKmerCorrection (lines 501-543): scan the alternative bases for
position i inside the k-mer starting at kIdx; if the final bestCount meets
minCount, return the sequence with position i rewritten to bestBase. -/
def attemptKmerCorrection (count : List Char → Nat) (k i kIdx minCount : Nat)
    (seq : List Char) : Option (List Char) :=
  match scanAlts count (kmerAt seq kIdx k) (i - kIdx) (seq.getD i '$') minCount
      alphabetList 0 '$' with
  | .abort => none
  | .best bc bb => if minCount ≤ bc then some (seq.set i bb) else none

/-- countVector entry (lines 404-425): the FM-index count of the k-mer of the
current working sequence starting at j. -/
def countAt (orc : KmerOracle) (k : Nat) (seq : List Char) (j : Nat) : Nat :=
  orc.count (kmerAt seq j k)

/-- solidVector entry (lines 428-434): position i is solid iff some k-mer
start j covers i and that k-mer's count meets the required support for its
minimum phred score. -/
def solidAt (orc : KmerOracle) (k : Nat) (phredOf : Nat → Nat) (seq : List Char)
    (i : Nat) : Bool :=
  (List.range (seq.length + 1 - k)).any fun j =>
    decide (j ≤ i) && decide (i < j + k) &&
      decide (orc.requiredSupport (minPhredAt phredOf k j) ≤ countAt orc k seq j)

/-- The allSolid check (lines 437-445). -/
def allSolidSeq (orc : KmerOracle) (k : Nat) (phredOf : Nat → Nat)
    (seq : List Char) : Bool :=
  (List.range seq.length).all fun i => solidAt orc k phredOf seq i

/-- left_k_idx (line 465): the leftmost k-mer start covering position i. -/
def leftKIdx (k i : Nat) : Nat :=
  if k ≤ i + 1 then i + 1 - k else 0

/-- right_k_idx (line 471): min(i, n - k) for a sequence of length n. -/
def rightKIdx (k n i : Nat) : Nat :=
  min i (n - k)

/-- The precondition asserted on entry to attemptKmerCorrection (line 503):
the chosen k-mer covers position i. -/
def attemptPre (k i kIdx : Nat) : Prop :=
  kIdx ≤ i ∧ i < kIdx + k

/-- Body of the correction scan for one non-solid position i (lines 461-474):
try the leftmost covering k-mer, then the rightmost, each with
minCount = max(countVector[k_idx], threshold). -/
def scanStep (orc : KmerOracle) (k : Nat) (phredOf : Nat → Nat) (seq : List Char)
    (i : Nat) : Option (List Char) :=
  match attemptKmerCorrection orc.count k i (leftKIdx k i)
      (max (countAt orc k seq (leftKIdx k i)) (orc.requiredSupport (phredOf i))) seq with
  | some s => some s
  | none =>
    attemptKmerCorrection orc.count k i (rightKIdx k seq.length i)
      (max (countAt orc k seq (rightKIdx k seq.length i)) (orc.requiredSupport (phredOf i))) seq

/-- The per-round for loop over every position (lines 456-476): solid
positions are skipped, and the scan stops at the FIRST position whose attempt
succeeds; it does NOT stop after a failed attempt. -/
def scanFrom (orc : KmerOracle) (k : Nat) (phredOf : Nat → Nat) (seq : List Char) :
    List Nat → Option (List Char)
  | [] => none
  | i :: rest =>
    if solidAt orc k phredOf seq i then scanFrom orc k phredOf seq rest
    else
      match scanStep orc k phredOf seq i with
      | some s => some s
      | none => scanFrom orc k phredOf seq rest

/-- One correction scan over positions 0..n-1 of the working sequence. -/
def kmerRoundScan (orc : KmerOracle) (k : Nat) (phredOf : Nat → Nat)
    (seq : List Char) : Option (List Char) :=
  scanFrom orc k phredOf seq (List.range seq.length)

/-- The while loop of kmerCorrection (lines 396-484) with explicit fuel; the
returned pair is the working sequence and the final allSolid flag. An
iteration checks solidity, breaks on allSolid or on rounds++ > maxAttempts,
otherwise runs one correction scan and stops if the scan changed nothing. -/
def kmerLoop (orc : KmerOracle) (k maxAttempts : Nat) (phredOf : Nat → Nat) :
    Nat → List Char → Nat → Option (List Char × Bool)
  | 0, _, _ => none
  | fuel + 1, seq, rounds =>
    if allSolidSeq orc k phredOf seq then some (seq, true)
    else if maxAttempts < rounds then some (seq, false)
    else
      match kmerRoundScan orc k phredOf seq with
      | some s => kmerLoop orc k maxAttempts phredOf fuel s (rounds + 1)
      | none => some (seq, false)

/-- kmerCorrection (lines 349-497): a read shorter than k fails immediately
with its own sequence; otherwise the round loop runs, and on a non-allSolid
exit the ORIGINAL read sequence is returned with kmerQC = false (line 493),
discarding any partial corrections held in the working sequence. -/
def kmerCorrection (orc : KmerOracle) (p : ErrorCorrectParameters)
    (phredOf : Nat → Nat) (fuel : Nat) (readSeq : List Char) :
    Option ErrorCorrectResult :=
  if readSeq.length < p.kmerLength then
    some { correctSequence := readSeq, kmerQC := false }
  else
    match kmerLoop orc p.kmerLength p.numKmerRounds phredOf fuel readSeq 0 with
    | none => none
    | some (w, true) => some { correctSequence := w, kmerQC := true }
    | some (_, false) => some { correctSequence := readSeq, kmerQC := false }

/-- Modelled from the spec: the legacy overlap service and multi-overlap pile
(§4.8, §6); OverlapAlgorithm, blockListToMultiOverlap and MultiOverlap are not
under src. Every per-round quantity is a function of the current read alone
(the block list and pile are rebuilt from it each round; p_error = 0.01 and
conflictCutoff are fixed per run and absorbed into the oracle). blockSizes
returns ranges.interval[0].size() for each overlap block; qcCheck takes the
current read and the updated root sequence. -/
structure LegacyOracle where
  blockSizes : List Char → List Nat
  consensusConflict : List Char → List Char
  countPre : List Char → Nat
  countSuf : List Char → Nat
  qcCheck : List Char → List Char → Bool

/-- The while loop of the legacy overlapCorrection (lines 85-134) with fuel;
the result is paired with bQCPass as they stand at line 136. The depth-filter
branch (lines 99-106) stores overlapQC = true in the result and breaks while
bQCPass is still false. -/
def overlapLoop (orc : LegacyOracle) (p : ErrorCorrectParameters) :
    Nat → List Char → Nat → Option (ErrorCorrectResult × Bool)
  | 0, _, _ => none
  | fuel + 1, curr, rounds =>
    if 0 < p.depthFilter ∧ p.depthFilter < (orc.blockSizes curr).sum then
      some ({ correctSequence := curr, overlapQC := true,
              num_prefix_overlaps := (orc.blockSizes curr).sum,
              num_suffix_overlaps := (orc.blockSizes curr).sum }, false)
    else
      if rounds + 1 = p.numOverlapRounds ∨ orc.consensusConflict curr = curr then
        some ({ correctSequence := orc.consensusConflict curr, overlapQC := false,
                num_prefix_overlaps := orc.countPre curr,
                num_suffix_overlaps := orc.countSuf curr },
              orc.qcCheck curr (orc.consensusConflict curr))
      else overlapLoop orc p fuel (orc.consensusConflict curr) (rounds + 1)

/-- overlapCorrection (lines 72-149): run the loop and then unconditionally
overwrite result.overlapQC with bQCPass (line 136), also after the
depth-filter break. -/
def overlapCorrection (orc : LegacyOracle) (p : ErrorCorrectParameters)
    (fuel : Nat) (readSeq : List Char) : Option ErrorCorrectResult :=
  (overlapLoop orc p fuel readSeq 0).map fun x => { x.1 with overlapQC := x.2 }

/-- Modelled from the spec: the base complement used by reverseComplement
(§4.4); Util is not under src. Characters outside A,C,G,T are unchanged. -/
def complementBase : Char → Char
  | 'A' => 'T'
  | 'C' => 'G'
  | 'G' => 'C'
  | 'T' => 'A'
  | c => c

/-- Modelled from the spec: reverseComplement of a DNA string. -/
def reverseComplement (s : List Char) : List Char :=
  s.reverse.map complementBase

/-- A pairwise overlap as exposed by the external overlap library (§6):
length, and percent identity on the 0-100 scale. -/
structure SequenceOverlap where
  length : Nat
  percentIdentity : ℚ
deriving DecidableEq

/-- struct KmerMatch (lines 156-174): query position, BWT index (a read id
after resolution), strand. -/
structure KmerMatch where
  position : Nat
  index : Int
  reverse : Bool
deriving DecidableEq

/-- Modelled from the spec: the FM-index, sampled suffix array, overlapper and
multiple-alignment services consumed by overlapCorrectionNew (§6, §4.5, §4.6);
BWT, SampledSuffixArray, Overlapper and MultipleAlignment are not under src.
findInterval returns none for an invalid interval and otherwise the pair
(lower, upper), whose size is upper - lower + 1; calcConsensus is
calculateBaseConsensus applied to the base sequence and the accepted overlap
rows with arguments (max_depth, min_support). -/
structure OverlapNewOracle where
  findInterval : List Char → Option (Int × Int)
  bwtChar : Int → Char
  getPC : Char → Int
  getOcc : Char → Int → Int
  lookupLexoRank : Int → Int
  extractString : Int → List Char
  computeOverlap : List Char → List Char → SequenceOverlap
  extendMatch : List Char → List Char → Nat → Nat → Nat → SequenceOverlap
  calcConsensus : List Char → List (List Char × SequenceOverlap) → Nat → Nat → List Char

/-- max_interval_size (line 191). -/
def maxIntervalSize : Int := 500

/-- Integer range lower..upper inclusive. -/
def intRange (l u : Int) : List Int :=
  (List.range (u + 1 - l).toNat).map fun d => l + d

/-- Per-strand interval expansion of the sweep (lines 213-220 and 224-231): an
invalid interval, or one whose size is not strictly below maxIntervalSize,
contributes nothing; otherwise one KmerMatch per index of the interval. -/
def intervalEntries (position : Nat) (rev : Bool) : Option (Int × Int) → List KmerMatch
  | none => []
  | some (l, u) =>
    if u - l + 1 < maxIntervalSize then
      (intRange l u).map fun j => { position := position, index := j, reverse := rev }
    else []

/-- Visited-flag lookup by premap key; KmerMatchMap keys compare by index and
strand only (lines 170-180). -/
def pmFind (pm : List (KmerMatch × Bool)) (idx : Int) (rev : Bool) : Option Bool :=
  (pm.find? fun e => decide (e.1.index = idx) && decide (e.1.reverse = rev)).map (·.2)

/-- Mark the premap entry with the given key as visited. -/
def pmSetVisited (pm : List (KmerMatch × Bool)) (idx : Int) (rev : Bool) :
    List (KmerMatch × Bool) :=
  pm.map fun e =>
    if e.1.index = idx ∧ e.1.reverse = rev then (e.1, true) else e

/-- HashMap insert with flag false (lines 218, 229): a key already present
keeps its first entry. -/
def premapInsert (pm : List (KmerMatch × Bool)) (e : KmerMatch) :
    List (KmerMatch × Bool) :=
  if (pmFind pm e.index e.reverse).isSome then pm else pm ++ [(e, false)]

/-- The interval sweep building the premap (lines 207-232): for each k-mer of
the current sequence, expand the forward interval, then the interval of the
reverse complement. -/
def buildPremap (orc : OverlapNewOracle) (k : Nat) (curr : List Char) :
    List (KmerMatch × Bool) :=
  (List.range (curr.length + 1 - k)).foldl
    (fun pm i =>
      ((intervalEntries i false (orc.findInterval (kmerAt curr i k))) ++
        (intervalEntries i true (orc.findInterval (reverseComplement (kmerAt curr i k))))).foldl
        premapInsert pm)
    []

/-- std::set ordering on KmerMatch (operator<, lines 162-168): by index, then
by strand with forward before reverse. -/
def matchLt (a b : KmerMatch) : Prop :=
  a.index < b.index ∨ (a.index = b.index ∧ a.reverse = false ∧ b.reverse = true)

instance (a b : KmerMatch) : Decidable (matchLt a b) := by
  unfold matchLt
  infer_instance

/-- std::set insertion into the ordered match set (line 269): keep the list
sorted by matchLt and drop an equivalent key. -/
def matchInsert (m : KmerMatch) : List KmerMatch → List KmerMatch
  | [] => [m]
  | x :: xs =>
    if matchLt m x then m :: x :: xs
    else if matchLt x m then x :: matchInsert m xs
    else x :: xs

/-- One LF-backtrack walk (lines 249-272) with fuel: step the index through
the LF-mapping; if the stepped key is in the premap, stop when it was already
visited, else mark it visited; on the sentinel resolve the lexicographic rank
through the sampled suffix array and emit the match. -/
def backtrackWalk (orc : OverlapNewOracle) : Nat → KmerMatch → List (KmerMatch × Bool) →
    Option (List (KmerMatch × Bool) × Option KmerMatch)
  | 0, _, _ => none
  | fuel + 1, m, pm =>
    match pmFind pm (orc.getPC (orc.bwtChar m.index) + orc.getOcc (orc.bwtChar m.index) (m.index - 1)) m.reverse with
    | some true => some (pm, none)
    | some false =>
      if orc.bwtChar m.index = '$' then
        some (pmSetVisited pm (orc.getPC (orc.bwtChar m.index) + orc.getOcc (orc.bwtChar m.index) (m.index - 1)) m.reverse,
          some { m with index := orc.lookupLexoRank (orc.getPC (orc.bwtChar m.index) + orc.getOcc (orc.bwtChar m.index) (m.index - 1)) })
      else
        backtrackWalk orc fuel
          { m with index := orc.getPC (orc.bwtChar m.index) + orc.getOcc (orc.bwtChar m.index) (m.index - 1) }
          (pmSetVisited pm (orc.getPC (orc.bwtChar m.index) + orc.getOcc (orc.bwtChar m.index) (m.index - 1)) m.reverse)
    | none =>
      if orc.bwtChar m.index = '$' then
        some (pm, some { m with index := orc.lookupLexoRank (orc.getPC (orc.bwtChar m.index) + orc.getOcc (orc.bwtChar m.index) (m.index - 1)) })
      else
        backtrackWalk orc fuel
          { m with index := orc.getPC (orc.bwtChar m.index) + orc.getOcc (orc.bwtChar m.index) (m.index - 1) }
          pm

/-- The loop over premap entries (lines 238-273): skip visited entries, mark
the entry visited, walk it back, and collect resolved matches into the
ordered set. -/
def processEntries (orc : OverlapNewOracle) (wfuel : Nat) :
    List KmerMatch → List (KmerMatch × Bool) → List KmerMatch →
    Option (List (KmerMatch × Bool) × List KmerMatch)
  | [], pm, acc => some (pm, acc)
  | e :: rest, pm, acc =>
    match pmFind pm e.index e.reverse with
    | some true => processEntries orc wfuel rest pm acc
    | _ =>
      match backtrackWalk orc wfuel e (pmSetVisited pm e.index e.reverse) with
      | none => none
      | some (pm2, none) => processEntries orc wfuel rest pm2 acc
      | some (pm2, some om) => processEntries orc wfuel rest pm2 (matchInsert om acc)

/-- std::string::find from position start: the first index at which needle
occurs in hay. -/
def strFind (hay needle : List Char) (start : Nat) : Option Nat :=
  (List.range' start (hay.length + 1 - start)).find? fun j =>
    needle.isPrefixOf (hay.drop j)

/-- The overlap refinement of one match (lines 285-317): fetch and orient the
match sequence, locate the seed k-mer in both sequences (the outer none models
a failure of the assert at line 295), pick banded extension unless a secondary
occurrence exists, and keep the row iff both thresholds pass (a kept row
records its source match). -/
def rowFor (orc : OverlapNewOracle) (p : ErrorCorrectParameters) (curr : List Char)
    (m : KmerMatch) : Option (Option (KmerMatch × List Char × SequenceOverlap)) :=
  let mseq := if m.reverse then reverseComplement (orc.extractString m.index)
    else orc.extractString m.index
  let mk := kmerAt curr m.position p.kmerLength
  match strFind curr mk 0, strFind mseq mk 0 with
  | some p0, some p1 =>
    let ov := if (strFind curr mk (p0 + 1)).isSome || (strFind mseq mk (p1 + 1)).isSome
      then orc.computeOverlap curr mseq
      else orc.extendMatch curr mseq p0 p1 20
    if p.minOverlap ≤ ov.length ∧ p.minIdentity ≤ ov.percentIdentity / 100 then
      some (some (m, mseq, ov))
    else some none
  | _, _ => none

/-- The loop over resolved matches (lines 280-318): a match whose index equals
the query read's idx is skipped before any overlap computation (lines
282-283); the others are refined into rows. -/
def buildRows (orc : OverlapNewOracle) (p : ErrorCorrectParameters) (idx : Int)
    (curr : List Char) : List KmerMatch →
    Option (List (KmerMatch × List Char × SequenceOverlap))
  | [] => some []
  | m :: rest =>
    if m.index = idx then buildRows orc p idx curr rest
    else
      match rowFor orc p curr m, buildRows orc p idx curr rest with
      | some (some row), some rows => some (row :: rows)
      | some none, some rows => some rows
      | _, _ => none

/-- One round of overlapCorrectionNew up to the accepted rows (lines 207-318):
interval sweep, LF-backtrack, overlap refinement. -/
def roundCompute (orc : OverlapNewOracle) (p : ErrorCorrectParameters) (idx : Int)
    (wfuel : Nat) (curr : List Char) :
    Option (List (KmerMatch × List Char × SequenceOverlap)) :=
  match processEntries orc wfuel ((buildPremap orc p.kmerLength curr).map (·.1))
      (buildPremap orc p.kmerLength curr) [] with
  | none => none
  | some (_, ms) => buildRows orc p idx curr ms

/-- The round loop of overlapCorrectionNew (lines 198-331), by remaining round
count: a non-final round adopts calcConsensus(10000, 0) as the next current
sequence; the final round stores calcConsensus(10000, 3) as the consensus. -/
def overlapNewRounds (orc : OverlapNewOracle) (p : ErrorCorrectParameters)
    (idx : Int) (wfuel : Nat) : Nat → List Char → List Char →
    Option (List Char × List Char)
  | 0, curr, cons => some (curr, cons)
  | remaining + 1, curr, cons =>
    match roundCompute orc p idx wfuel curr with
    | none => none
    | some rows =>
      if remaining = 0 then
        some (curr, orc.calcConsensus curr (rows.map fun r => (r.2.1, r.2.2)) 10000 3)
      else
        overlapNewRounds orc p idx wfuel remaining
          (orc.calcConsensus curr (rows.map fun r => (r.2.1, r.2.2)) 10000 0) cons

/-- overlapCorrectionNew (lines 185-345): run numOverlapRounds rounds; a
nonempty final consensus is returned with overlapQC = true, otherwise the
unmodified query sequence with overlapQC = false (lines 333-343). -/
def overlapCorrectionNew (orc : OverlapNewOracle) (p : ErrorCorrectParameters)
    (idx : Int) (wfuel : Nat) (readSeq : List Char) : Option ErrorCorrectResult :=
  match overlapNewRounds orc p idx wfuel p.numOverlapRounds readSeq [] with
  | none => none
  | some (_, cons) =>
    if cons = [] then some { correctSequence := readSeq, overlapQC := false }
    else some { correctSequence := cons, overlapQC := true }

/-- The dispatcher correct (lines 40-70): KMER runs the k-mer corrector,
OVERLAP the index-driven corrector, HYBRID the k-mer corrector first and, on
kmerQC = false, the legacy overlap corrector on the original read. -/
def correct (korc : KmerOracle) (phredOf : Nat → Nat) (lorc : LegacyOracle)
    (norc : OverlapNewOracle) (p : ErrorCorrectParameters) (idx : Int)
    (kfuel lfuel wfuel : Nat) (readSeq : List Char) : Option ErrorCorrectResult :=
  match p.algorithm with
  | .hybrid =>
    match kmerCorrection korc p phredOf kfuel readSeq with
    | none => none
    | some r => if r.kmerQC then some r else overlapCorrection lorc p lfuel readSeq
  | .kmer => kmerCorrection korc p phredOf kfuel readSeq
  | .overlap => overlapCorrectionNew norc p idx wfuel readSeq

/-! Concrete instances used by the counterexamples and witnesses. -/

/-- Base parameter record for the concrete runs. -/
def pBase : ErrorCorrectParameters :=
  { algorithm := .kmer
    kmerLength := 3
    numKmerRounds := 3
    numOverlapRounds := 1
    minOverlap := 0
    minIdentity := 0
    conflictCutoff := 5
    depthFilter := 10000
    printOverlaps := false }

/-- Trivial k-mer oracle: every count is 0, every threshold is 1. -/
def orcTriv : KmerOracle :=
  { count := fun _ => 0, requiredSupport := fun _ => 1 }

/-- Trivial index-driven oracle. -/
def trivNOrc : OverlapNewOracle :=
  { findInterval := fun _ => none
    bwtChar := fun _ => '$'
    getPC := fun _ => 0
    getOcc := fun _ _ => 0
    lookupLexoRank := fun i => i
    extractString := fun _ => []
    computeOverlap := fun _ _ => { length := 0, percentIdentity := 0 }
    extendMatch := fun _ _ _ _ _ => { length := 0, percentIdentity := 0 }
    calcConsensus := fun _ _ _ _ => [] }

/-- Parameters for the claim-1 run: hybrid, five overlap rounds. -/
def pC1 : ErrorCorrectParameters :=
  { pBase with algorithm := .hybrid, numOverlapRounds := 5 }

/-- Legacy-overlap oracle for the claim-1 run: one overlap block of size
10001, exceeding the depth filter of 10000. -/
def orcL1 : LegacyOracle :=
  { blockSizes := fun _ => [10001]
    consensusConflict := fun s => s
    countPre := fun _ => 0
    countSuf := fun _ => 0
    qcCheck := fun _ _ => true }

/-- Parameters for the claim-2 run: hybrid with k = 5 (so the two-base read
fails the k-mer path) and one overlap round. -/
def pC2 : ErrorCorrectParameters :=
  { pBase with algorithm := .hybrid, kmerLength := 5, numOverlapRounds := 1 }

/-- Legacy-overlap oracle for the claim-2 run: no overlap blocks, a consensus
that rewrites the read to GG, and a failing qcCheck. -/
def lorcC2 : LegacyOracle :=
  { blockSizes := fun _ => []
    consensusConflict := fun _ => ['G', 'G']
    countPre := fun _ => 2
    countSuf := fun _ => 3
    qcCheck := fun _ _ => false }

/-- Parameters for the claim-2 witness: k = 2 and zero overlap rounds. -/
def pW2 : ErrorCorrectParameters :=
  { pBase with kmerLength := 2, numOverlapRounds := 0 }

/-- Count oracle for the claim-3 run: only CAA is well-supported, so round one
corrects position 0 of AAAA and round two can correct nothing. -/
def countEx3 : List Char → Nat
  | ['C', 'A', 'A'] => 5
  | _ => 0

/-- k-mer oracle for the claim-3 run. -/
def orcEx3 : KmerOracle :=
  { count := countEx3, requiredSupport := fun _ => 2 }

/-- Count oracle for the claim-4 run: two distinct alternatives (C and G) for
position 0 of AAA are tied at count 7. -/
def countEx4 : List Char → Nat
  | ['C', 'A', 'A'] => 7
  | ['G', 'A', 'A'] => 7
  | _ => 0

/-- Count oracle for the claim-5 run: only CAT is well-supported, so position
0 of AAATTT is uncorrectable while position 1 is correctable through its
rightmost covering k-mer. -/
def countEx5 : List Char → Nat
  | ['C', 'A', 'T'] => 9
  | _ => 0

/-- k-mer oracle for the claim-5 run. -/
def orcEx5 : KmerOracle :=
  { count := countEx5, requiredSupport := fun _ => 2 }

/-- Read for the claim-5 run. -/
def seqEx5 : List Char := ['A', 'A', 'A', 'T', 'T', 'T']

/-- Index-driven oracle for the claim-6 witness: every lookup returns the
interval [0, 499], whose size is exactly 500. -/
def fmEx6 : OverlapNewOracle :=
  { trivNOrc with findInterval := fun _ => some (0, 499) }

/-- Parameters for the claim-8 witness: k = 1 and zero k-mer rounds. -/
def pW8 : ErrorCorrectParameters :=
  { pBase with kmerLength := 1, numKmerRounds := 0 }

/-! Helper lemmas shared by the claim theorems. -/

/-- Invariants of the alternative-base loop: on a non-abort exit the best
count never decreased, it is the count of the best base (unless no base was
ever adopted), and every alternative in the list either stays at or below the
final best count or misses minCount. -/
lemma scanAlts_best (count : List Char → Nat) (kmer : List Char) (baseIdx : Nat)
    (orig : Char) (m : Nat) :
    ∀ (alts : List Char) (bc : Nat) (bb : Char) (bc' : Nat) (bb' : Char),
      scanAlts count kmer baseIdx orig m alts bc bb = .best bc' bb' →
      bc ≤ bc' ∧
      (((bb = '$' ∧ bc = 0) ∨ bc = count (kmer.set baseIdx bb)) →
        ((bb' = '$' ∧ bc' = 0) ∨ bc' = count (kmer.set baseIdx bb'))) ∧
      ∀ c ∈ alts, c ≠ orig →
        count (kmer.set baseIdx c) ≤ bc' ∨ count (kmer.set baseIdx c) < m := by
  intro alts
  induction alts with
  | nil =>
    intro bc bb bc' bb' h
    simp only [scanAlts] at h
    cases h
    exact ⟨le_refl _, fun hi => hi, by simp⟩
  | cons c rest ih =>
    intro bc bb bc' bb' h
    simp only [scanAlts] at h
    by_cases hco : c = orig
    · rw [if_pos hco] at h
      obtain ⟨h1, h2, h3⟩ := ih bc bb bc' bb' h
      refine ⟨h1, h2, ?_⟩
      intro d hd hdo
      rcases List.mem_cons.mp hd with rfl | hd'
      · exact absurd hco hdo
      · exact h3 d hd' hdo
    · rw [if_neg hco] at h
      by_cases hq : bc < count (kmer.set baseIdx c) ∧ m ≤ count (kmer.set baseIdx c)
      · rw [if_pos hq] at h
        by_cases hbb : bb ≠ '$'
        · rw [if_pos hbb] at h
          cases h
        · rw [if_neg hbb] at h
          obtain ⟨h1, h2, h3⟩ := ih (count (kmer.set baseIdx c)) c bc' bb' h
          refine ⟨le_trans (le_of_lt hq.1) h1, ?_, ?_⟩
          · intro _
            exact h2 (Or.inr rfl)
          · intro d hd hdo
            rcases List.mem_cons.mp hd with rfl | hd'
            · exact Or.inl h1
            · exact h3 d hd' hdo
      · rw [if_neg hq] at h
        obtain ⟨h1, h2, h3⟩ := ih bc bb bc' bb' h
        refine ⟨h1, h2, ?_⟩
        intro d hd hdo
        rcases List.mem_cons.mp hd with rfl | hd'
        · rcases Nat.lt_or_ge (count (kmer.set baseIdx d)) m with hlt | hge
          · exact Or.inr hlt
          · have hle : count (kmer.set baseIdx d) ≤ bc :=
              Nat.le_of_not_lt fun hh => hq ⟨hh, hge⟩
            exact Or.inl (le_trans hle h1)
        · exact h3 d hd' hdo

/-- Fuel numKmerRounds + 2 always suffices for the k-mer round loop. -/
lemma kmerLoop_isSome (orc : KmerOracle) (k maxAttempts : Nat) (phredOf : Nat → Nat) :
    ∀ (fuel rounds : Nat) (seq : List Char), rounds ≤ maxAttempts + 1 →
      maxAttempts + 2 ≤ fuel + rounds →
      (kmerLoop orc k maxAttempts phredOf fuel seq rounds).isSome = true := by
  intro fuel
  induction fuel with
  | zero =>
    intro rounds seq h1 h2
    exact absurd h2 (by omega)
  | succ n ih =>
    intro rounds seq h1 h2
    simp only [kmerLoop]
    split
    · simp
    · split
      · simp
      · rename_i hr
        cases hscan : kmerRoundScan orc k phredOf seq with
        | none => simp
        | some s =>
          exact ih (rounds + 1) s (by omega) (by omega)

/-- The k-mer round loop is monotone in fuel: a result obtained with less fuel
is preserved by more fuel. -/
lemma kmerLoop_mono (orc : KmerOracle) (k maxAttempts : Nat) (phredOf : Nat → Nat) :
    ∀ (f1 f2 : Nat) (seq : List Char) (rounds : Nat) (x : List Char × Bool),
      kmerLoop orc k maxAttempts phredOf f1 seq rounds = some x → f1 ≤ f2 →
      kmerLoop orc k maxAttempts phredOf f2 seq rounds = some x := by
  intro f1
  induction f1 with
  | zero =>
    intro f2 seq rounds x h _
    simp [kmerLoop] at h
  | succ n ih =>
    intro f2 seq rounds x h hle
    obtain ⟨f3, rfl⟩ : ∃ f3, f2 = f3 + 1 := ⟨f2 - 1, by omega⟩
    simp only [kmerLoop] at h ⊢
    by_cases hs : allSolidSeq orc k phredOf seq = true
    · rw [if_pos hs] at h ⊢
      exact h
    · rw [if_neg hs] at h ⊢
      by_cases hr : maxAttempts < rounds
      · rw [if_pos hr] at h ⊢
        exact h
      · rw [if_neg hr] at h ⊢
        cases hscan : kmerRoundScan orc k phredOf seq with
        | none =>
          rw [hscan] at h
          exact h
        | some s =>
          rw [hscan] at h
          exact ih f3 s (rounds + 1) x h (by omega)

/-- Any kmerCorrection result that carries kmerQC = false carries the original
read sequence (lines 366, 493). -/
lemma kmerCorrection_fail_original (orc : KmerOracle) (p : ErrorCorrectParameters)
    (phredOf : Nat → Nat) (fuel : Nat) (seq : List Char) (r : ErrorCorrectResult)
    (h : kmerCorrection orc p phredOf fuel seq = some r) (hqc : r.kmerQC = false) :
    r.correctSequence = seq := by
  unfold kmerCorrection at h
  by_cases hlen : seq.length < p.kmerLength
  · rw [if_pos hlen] at h
    injection h with h
    subst h
    rfl
  · rw [if_neg hlen] at h
    cases hl : kmerLoop orc p.kmerLength p.numKmerRounds phredOf fuel seq 0 with
    | none =>
      rw [hl] at h
      cases h
    | some x =>
      rw [hl] at h
      obtain ⟨w, b⟩ := x
      cases b
      · injection h with h
        subst h
        rfl
      · injection h with h
        subst h
        simp at hqc

/-- Any overlapCorrectionNew result that carries overlapQC = false carries the
unmodified query sequence (lines 340-342). -/
lemma overlapNew_fail_original (orc : OverlapNewOracle) (p : ErrorCorrectParameters)
    (idx : Int) (wfuel : Nat) (seq : List Char) (r : ErrorCorrectResult)
    (h : overlapCorrectionNew orc p idx wfuel seq = some r) (hqc : r.overlapQC = false) :
    r.correctSequence = seq := by
  unfold overlapCorrectionNew at h
  cases hr : overlapNewRounds orc p idx wfuel p.numOverlapRounds seq [] with
  | none =>
    rw [hr] at h
    cases h
  | some x =>
    rw [hr] at h
    obtain ⟨c1, c2⟩ := x
    dsimp only at h
    by_cases hc : c2 = []
    · rw [if_pos hc] at h
      injection h with h
      subst h
      rfl
    · rw [if_neg hc] at h
      injection h with h
      subst h
      simp at hqc

/-- A row kept by rowFor records the match it was built from. -/
lemma rowFor_fst (orc : OverlapNewOracle) (p : ErrorCorrectParameters)
    (curr : List Char) (m : KmerMatch) (row : KmerMatch × List Char × SequenceOverlap)
    (h : rowFor orc p curr m = some (some row)) : row.1 = m := by
  simp only [rowFor] at h
  split at h
  · split at h <;> split at h <;> split at h <;>
      first
        | (injection h with h
           injection h with h
           rw [← h])
        | (injection h with h
           exact Option.noConfusion h)
  all_goals exact Option.noConfusion h

/-! Claim theorems. -/

/-- Claim C10: the constructed process always uses depthFilter = 10000: the
constructor overwrites the copied parameters' depthFilter, so the
caller-provided value (including 0, which would disable the filter) never
reaches a correction; the legacy corrector reads the filter only from the
constructed parameters. -/
theorem c10_depth_filter_forced (p : ErrorCorrectParameters) (d : Nat) :
    (mkErrorCorrectProcess p).depthFilter = 10000 ∧
    mkErrorCorrectProcess { p with depthFilter := d } = mkErrorCorrectProcess p ∧
    ∀ (orc : LegacyOracle) (fuel : Nat) (seq : List Char),
      overlapCorrection orc (mkErrorCorrectProcess { p with depthFilter := d }) fuel seq =
        overlapCorrection orc (mkErrorCorrectProcess p) fuel seq :=
  ⟨rfl, rfl, fun _ _ _ => rfl⟩

/-- Claim C9: for a read of length n ≥ k ≥ 1 and any position i < n, both call
sites of attemptKmerCorrection pass a k-mer start that covers i, so the
assertion k_idx ≤ i < k_idx + k at its entry (line 503) holds. -/
theorem c9_attempt_precondition (k : Nat) (seq : List Char) (i : Nat)
    (hk : 1 ≤ k) (hn : k ≤ seq.length) (hi : i < seq.length) :
    attemptPre k i (leftKIdx k i) ∧ attemptPre k i (rightKIdx k seq.length i) := by
  unfold attemptPre leftKIdx rightKIdx
  refine ⟨?_, ?_⟩
  · split <;> omega
  · rw [Nat.min_def]
    split <;> omega

/-- Claim C1 (code bug): at the depth-filter short circuit the loop stores
overlapQC = true and the summed overlap count into the result, but line 136
unconditionally overwrites overlapQC with bQCPass, which is still false, so
the returned result has overlapQC = false — contradicting the claim (and the
dead store at line 104). The counters and the unchanged sequence behave as
claimed. -/
theorem c1_depth_filter_overwritten_qc :
    overlapLoop orcL1 pC1 1 ['A', 'C', 'G', 'T'] 0 =
      some ({ correctSequence := ['A', 'C', 'G', 'T'], overlapQC := true,
              num_prefix_overlaps := 10001, num_suffix_overlaps := 10001 }, false) ∧
    overlapCorrection orcL1 pC1 1 ['A', 'C', 'G', 'T'] =
      some { correctSequence := ['A', 'C', 'G', 'T'], overlapQC := false,
             num_prefix_overlaps := 10001, num_suffix_overlaps := 10001 } :=
  ⟨rfl, rfl⟩

/-- Claim C2 (counterexample): on the hybrid path, the legacy overlap
corrector can return a result with both QC flags false whose sequence differs
from the input read (the final consensus is kept even when qcCheck fails). -/
theorem c2_counterexample :
    correct orcTriv (fun _ => 0) lorcC2 trivNOrc pC2 0 2 2 1 ['A', 'A'] =
      some { correctSequence := ['G', 'G'], kmerQC := false, overlapQC := false,
             num_prefix_overlaps := 2, num_suffix_overlaps := 3 } ∧
    (['G', 'G'] : List Char) ≠ ['A', 'A'] :=
  ⟨rfl, by decide⟩

/-- Claim C2 (amended): on the k-mer dispatch path and on the index-driven
overlap path, a returned result whose QC flags are both false carries the
original read sequence; the legacy overlap path (reached from hybrid
dispatch) does not guarantee this. -/
theorem c2_amended (korc : KmerOracle) (p : ErrorCorrectParameters)
    (phredOf : Nat → Nat) (kfuel : Nat) (norc : OverlapNewOracle) (idx : Int)
    (wfuel : Nat) (seq : List Char) (r : ErrorCorrectResult) :
    (kmerCorrection korc p phredOf kfuel seq = some r → r.kmerQC = false →
      r.overlapQC = false → r.correctSequence = seq) ∧
    (overlapCorrectionNew norc p idx wfuel seq = some r → r.kmerQC = false →
      r.overlapQC = false → r.correctSequence = seq) :=
  ⟨fun h hk _ => kmerCorrection_fail_original korc p phredOf kfuel seq r h hk,
   fun h _ ho => overlapNew_fail_original norc p idx wfuel seq r h ho⟩

/-- Witness for the amended claim C2, at a two-base read under k = 5 and at a
zero-round index-driven run. -/
theorem c2_amended_witness :
    (kmerCorrection orcTriv pW2 (fun _ => 0) 1 ['A'] =
        some { correctSequence := ['A'], kmerQC := false } ∧
      ({ correctSequence := ['A'], kmerQC := false } : ErrorCorrectResult).correctSequence =
        ['A']) ∧
    (overlapCorrectionNew trivNOrc pW2 0 1 ['A'] =
        some { correctSequence := ['A'], overlapQC := false } ∧
      ({ correctSequence := ['A'], overlapQC := false } : ErrorCorrectResult).correctSequence =
        ['A']) :=
  ⟨⟨rfl, (c2_amended orcTriv pW2 (fun _ => 0) 1 trivNOrc 0 1 ['A']
      { correctSequence := ['A'], kmerQC := false }).1 rfl rfl rfl⟩,
   ⟨rfl, (c2_amended orcTriv pW2 (fun _ => 0) 1 trivNOrc 0 1 ['A']
      { correctSequence := ['A'], overlapQC := false }).2 rfl rfl rfl⟩⟩

/-- Claim C3 (counterexample): on AAAA with k = 3, round one corrects position
0 (working sequence CAAA) and round two corrects nothing, so the loop
terminates because no attempt changed the sequence with working sequence
CAAA — but kmerCorrection returns the ORIGINAL read AAAA, not the
partially-corrected sequence the claim promises. -/
theorem c3_counterexample :
    kmerLoop orcEx3 3 3 (fun _ => 0) 5 ['A', 'A', 'A', 'A'] 0 =
      some (['C', 'A', 'A', 'A'], false) ∧
    kmerCorrection orcEx3 pBase (fun _ => 0) 5 ['A', 'A', 'A', 'A'] =
      some { correctSequence := ['A', 'A', 'A', 'A'], kmerQC := false } ∧
    (['C', 'A', 'A', 'A'] : List Char) ≠ ['A', 'A', 'A', 'A'] :=
  ⟨by decide, by decide, by decide⟩

/-- Claim C3 (amended): when the k-mer corrector terminates without reaching
an all-solid state — in particular when a round makes no change — it returns
kmer_qc = false together with the ORIGINAL input sequence, discarding the
corrections made in earlier rounds (line 493). -/
theorem c3_amended (orc : KmerOracle) (p : ErrorCorrectParameters)
    (phredOf : Nat → Nat) (fuel : Nat) (seq : List Char) (r : ErrorCorrectResult)
    (h : kmerCorrection orc p phredOf fuel seq = some r) (hqc : r.kmerQC = false) :
    r.correctSequence = seq :=
  kmerCorrection_fail_original orc p phredOf fuel seq r h hqc

/-- Witness for the amended claim C3, at the concrete run whose round two
fails after round one corrected a base. -/
theorem c3_amended_witness :
    kmerCorrection orcEx3 pBase (fun _ => 0) 5 ['A', 'A', 'A', 'A'] =
      some { correctSequence := ['A', 'A', 'A', 'A'], kmerQC := false } ∧
    ({ correctSequence := ['A', 'A', 'A', 'A'], kmerQC := false } :
        ErrorCorrectResult).correctSequence = ['A', 'A', 'A', 'A'] :=
  ⟨by decide,
   c3_amended orcEx3 pBase (fun _ => 0) 5 ['A', 'A', 'A', 'A']
     { correctSequence := ['A', 'A', 'A', 'A'], kmerQC := false } (by decide) rfl⟩

/-- Claim C4 (counterexample): two distinct alternatives (C and G) both meet
min_count = 5 with equal replacement counts, yet the attempt corrects the
base to C instead of returning no correction: the early return at line 529
fires only on a STRICT improvement over the current best. -/
theorem c4_counterexample :
    5 ≤ countEx4 ['C', 'A', 'A'] ∧ 5 ≤ countEx4 ['G', 'A', 'A'] ∧
    ('C' : Char) ≠ 'G' ∧
    attemptKmerCorrection countEx4 3 0 0 5 ['A', 'A', 'A'] = some ['C', 'A', 'A'] :=
  ⟨by decide, by decide, by decide, by decide⟩

/-- Claim C4 (amended): whenever the single-base attempt corrects, the written
base meets min_count and its replacement-k-mer count is maximal among ALL
alternatives — so a strictly better later alternative always forces no
correction — but two alternatives tied at min_count or a later smaller
qualifying count do NOT abort: the earliest best alternative is chosen. -/
theorem c4_amended (count : List Char → Nat) (k i kIdx m : Nat) (seq s : List Char)
    (hm : 0 < m) (h : attemptKmerCorrection count k i kIdx m seq = some s) :
    ∃ b, s = seq.set i b ∧
      m ≤ count ((kmerAt seq kIdx k).set (i - kIdx) b) ∧
      ∀ c ∈ alphabetList, c ≠ seq.getD i '$' →
        count ((kmerAt seq kIdx k).set (i - kIdx) c) ≤
          count ((kmerAt seq kIdx k).set (i - kIdx) b) := by
  unfold attemptKmerCorrection at h
  cases hs : scanAlts count (kmerAt seq kIdx k) (i - kIdx) (seq.getD i '$') m
      alphabetList 0 '$' with
  | abort =>
    rw [hs] at h
    cases h
  | best bc bb =>
    rw [hs] at h
    dsimp only at h
    by_cases hbc : m ≤ bc
    · rw [if_pos hbc] at h
      injection h with h
      obtain ⟨_, hinv, hbound⟩ := scanAlts_best count (kmerAt seq kIdx k) (i - kIdx)
        (seq.getD i '$') m alphabetList 0 '$' bc bb hs
      have hbb : bc = count ((kmerAt seq kIdx k).set (i - kIdx) bb) := by
        rcases hinv (Or.inl ⟨rfl, rfl⟩) with ⟨_, h0⟩ | h1
        · omega
        · exact h1
      refine ⟨bb, h.symm, by omega, ?_⟩
      intro c hc hco
      rcases hbound c hc hco with hle | hlt
      · omega
      · omega
    · rw [if_neg hbc] at h
      cases h

/-- Witness for the amended claim C4, at the tied-alternatives run. -/
theorem c4_amended_witness :
    (0 < 5 ∧ attemptKmerCorrection countEx4 3 0 0 5 ['A', 'A', 'A'] = some ['C', 'A', 'A']) ∧
    ∃ b, (['C', 'A', 'A'] : List Char) = List.set ['A', 'A', 'A'] 0 b ∧
      5 ≤ countEx4 ((kmerAt ['A', 'A', 'A'] 0 3).set 0 b) ∧
      ∀ c ∈ alphabetList, c ≠ (['A', 'A', 'A'] : List Char).getD 0 '$' →
        countEx4 ((kmerAt ['A', 'A', 'A'] 0 3).set 0 c) ≤
          countEx4 ((kmerAt ['A', 'A', 'A'] 0 3).set 0 b) :=
  ⟨⟨by decide, by decide⟩,
   c4_amended countEx4 3 0 0 5 ['A', 'A', 'A'] ['C', 'A', 'A'] (by decide) (by decide)⟩

/-- Claim C5 (counterexample): on AAATTT with k = 3 the leftmost non-solid
base is position 0 and both of its attempts fail, yet the round does NOT
terminate: the scan moves on and corrects position 1 (to ACATTT), because the
for loop at lines 457-476 has no exit after a failed attempt. -/
theorem c5_counterexample :
    solidAt orcEx5 3 (fun _ => 0) seqEx5 0 = false ∧
    scanStep orcEx5 3 (fun _ => 0) seqEx5 0 = none ∧
    kmerRoundScan orcEx5 3 (fun _ => 0) seqEx5 = some ['A', 'C', 'A', 'T', 'T', 'T'] ∧
    (['A', 'C', 'A', 'T', 'T', 'T'] : List Char) ≠ seqEx5 :=
  ⟨by decide, by decide, by decide, by decide⟩

/-- Claim C5 (amended): the round scan visits the non-solid bases from left to
right, stopping at the first successful attempt; the round makes no change —
and only then does the loop terminate — exactly when EVERY non-solid base in
the scanned range fails both of its attempts, not merely the leftmost one. -/
theorem c5_amended (orc : KmerOracle) (k : Nat) (phredOf : Nat → Nat)
    (seq : List Char) :
    ∀ idxs : List Nat,
      (scanFrom orc k phredOf seq idxs = none ↔
        ∀ i ∈ idxs, solidAt orc k phredOf seq i = false →
          scanStep orc k phredOf seq i = none) := by
  intro idxs
  induction idxs with
  | nil => simp [scanFrom]
  | cons i rest ih =>
    simp only [scanFrom]
    by_cases hs : solidAt orc k phredOf seq i = true
    · rw [if_pos hs]
      constructor
      · intro h j hj hsj
        rcases List.mem_cons.mp hj with rfl | hj'
        · rw [hs] at hsj
          cases hsj
        · exact ih.mp h j hj' hsj
      · intro h
        exact ih.mpr fun j hj hsj => h j (List.mem_cons_of_mem i hj) hsj
    · have hs' : solidAt orc k phredOf seq i = false := by
        cases hb : solidAt orc k phredOf seq i
        · rfl
        · exact absurd hb hs
      rw [if_neg hs]
      cases hstep : scanStep orc k phredOf seq i with
      | some s =>
        constructor
        · intro h
          exact Option.noConfusion h
        · intro h
          have hi := h i (List.mem_cons_self i rest) hs'
          rw [hstep] at hi
          cases hi
      | none =>
        constructor
        · intro h j hj hsj
          rcases List.mem_cons.mp hj with rfl | hj'
          · exact hstep
          · exact ih.mp h j hj' hsj
        · intro h
          exact ih.mpr fun j hj hsj => h j (List.mem_cons_of_mem i hj) hsj

/-- Witness for the amended claim C5, on the empty index list. -/
theorem c5_amended_witness :
    scanFrom orcEx5 3 (fun _ => 0) seqEx5 [] = none :=
  (c5_amended orcEx5 3 (fun _ => 0) seqEx5 []).mpr (by simp)

/-- Claim C6: a k-mer lookup whose FM-index interval has size exactly 500
contributes no entries to the premap, on either strand (the test at lines 213
and 224 is interval.size() < max_interval_size, strictly); folding its empty
entry list into the premap leaves the premap unchanged. -/
theorem c6_interval_strict (orc : OverlapNewOracle) (i : Nat) (w : List Char)
    (l u : Int) (hw : orc.findInterval w = some (l, u)) (hs : u - l + 1 = 500) :
    intervalEntries i false (orc.findInterval w) = [] ∧
    intervalEntries i true (orc.findInterval w) = [] ∧
    ∀ pm : List (KmerMatch × Bool),
      (intervalEntries i false (orc.findInterval w)).foldl premapInsert pm = pm := by
  rw [hw]
  have hng : ¬ (u - l + 1 < maxIntervalSize) := by
    unfold maxIntervalSize
    omega
  refine ⟨?_, ?_, ?_⟩ <;> simp [intervalEntries, hng]

/-- Witness for claim C6, at the interval [0, 499] of size exactly 500. -/
theorem c6_interval_strict_witness :
    intervalEntries 0 false (fmEx6.findInterval ['A', 'C', 'G']) = [] ∧
    intervalEntries 0 true (fmEx6.findInterval ['A', 'C', 'G']) = [] :=
  ⟨(c6_interval_strict fmEx6 0 ['A', 'C', 'G'] 0 499 rfl (by decide)).1,
   (c6_interval_strict fmEx6 0 ['A', 'C', 'G'] 0 499 rfl (by decide)).2.1⟩

/-- Claim C7: every overlap row built by the index-driven corrector derives
from a resolved seed whose read id differs from the query read's idx — a seed
resolving to the query read itself is skipped before any overlap computation
(lines 282-283), so the read never contributes an overlap row against
itself. -/
theorem c7_no_self_overlap (orc : OverlapNewOracle) (p : ErrorCorrectParameters)
    (idx : Int) (curr : List Char) :
    ∀ (ms : List KmerMatch) (rows : List (KmerMatch × List Char × SequenceOverlap)),
      buildRows orc p idx curr ms = some rows →
      ∀ row ∈ rows, row.1.index ≠ idx := by
  intro ms
  induction ms with
  | nil =>
    intro rows h row hrow
    simp only [buildRows] at h
    injection h with h
    subst h
    simp at hrow
  | cons m rest ih =>
    intro rows h row hrow
    simp only [buildRows] at h
    by_cases hm : m.index = idx
    · rw [if_pos hm] at h
      exact ih rows h row hrow
    · rw [if_neg hm] at h
      split at h
      · rename_i row' rows' hrf hbr
        injection h with h
        subst h
        rcases List.mem_cons.mp hrow with rfl | hrow'
        · rw [rowFor_fst orc p curr m row hrf]
          exact hm
        · exact ih rows' hbr row hrow'
      · rename_i rows' hrf hbr
        injection h with h
        subst h
        exact ih rows' hbr row hrow
      · exact Option.noConfusion h

/-- Witness for claim C7, at a single non-self seed that yields a row. -/
theorem c7_no_self_overlap_witness :
    buildRows trivNOrc pBase 7 [] [{ position := 0, index := 3, reverse := false }] =
      some [({ position := 0, index := 3, reverse := false }, [],
        { length := 0, percentIdentity := 0 })] ∧
    ({ position := 0, index := 3, reverse := false } : KmerMatch).index ≠ (7 : Int) :=
  ⟨by
    simp only [buildRows, rowFor, trivNOrc, pBase, kmerAt, strFind, reverseComplement]
    norm_num,
   c7_no_self_overlap trivNOrc pBase 7 [] [{ position := 0, index := 3, reverse := false }]
     [({ position := 0, index := 3, reverse := false }, [],
       { length := 0, percentIdentity := 0 })]
     (by
       simp only [buildRows, rowFor, trivNOrc, pBase, kmerAt, strFind, reverseComplement]
       norm_num)
     ({ position := 0, index := 3, reverse := false }, [],
       { length := 0, percentIdentity := 0 }) (by simp)⟩

/-- Claim C8: for a read with |seq| ≥ k the round loop of kmerCorrection is
bounded: at most numKmerRounds + 1 iterations reach the correction scan
(those entered with rounds ≤ numKmerRounds), so fuel numKmerRounds + 2 —
the bounded iterations plus the final terminating solidity check — always
produces a result, and no amount of extra fuel can change it. -/
theorem c8_round_bound (orc : KmerOracle) (p : ErrorCorrectParameters)
    (phredOf : Nat → Nat) (seq : List Char) (h : p.kmerLength ≤ seq.length) :
    (kmerCorrection orc p phredOf (p.numKmerRounds + 2) seq).isSome = true ∧
    ∀ (fuel : Nat) (r : ErrorCorrectResult),
      kmerCorrection orc p phredOf fuel seq = some r →
      kmerCorrection orc p phredOf (p.numKmerRounds + 2) seq = some r := by
  have hnl : ¬ seq.length < p.kmerLength := by omega
  have htot := kmerLoop_isSome orc p.kmerLength p.numKmerRounds phredOf
    (p.numKmerRounds + 2) 0 seq (by omega) (by omega)
  obtain ⟨x, hx⟩ := Option.isSome_iff_exists.mp htot
  constructor
  · unfold kmerCorrection
    rw [if_neg hnl, hx]
    obtain ⟨w, b⟩ := x
    cases b <;> rfl
  · intro fuel r hr
    unfold kmerCorrection at hr ⊢
    rw [if_neg hnl] at hr ⊢
    cases hl : kmerLoop orc p.kmerLength p.numKmerRounds phredOf fuel seq 0 with
    | none =>
      rw [hl] at hr
      cases hr
    | some y =>
      rw [hl] at hr
      have h1 := kmerLoop_mono orc p.kmerLength p.numKmerRounds phredOf fuel
        (fuel + (p.numKmerRounds + 2)) seq 0 y hl (by omega)
      have h2 := kmerLoop_mono orc p.kmerLength p.numKmerRounds phredOf
        (p.numKmerRounds + 2) (fuel + (p.numKmerRounds + 2)) seq 0 x hx (by omega)
      have hxy : some x = some y := h2.symm.trans h1
      injection hxy with hxy
      rw [hx, hxy]
      exact hr

/-- Witness for claim C8, at a one-base read with k = 1 and zero rounds. -/
theorem c8_round_bound_witness :
    pW8.kmerLength ≤ (['A'] : List Char).length ∧
    (kmerCorrection orcTriv pW8 (fun _ => 0) (pW8.numKmerRounds + 2) ['A']).isSome = true :=
  ⟨by decide, (c8_round_bound orcTriv pW8 (fun _ => 0) ['A'] (by decide)).1⟩

/-- Witness for claim C9, at k = 3, a read of length 5 and position 2. -/
theorem c9_attempt_precondition_witness :
    attemptPre 3 2 (leftKIdx 3 2) ∧
    attemptPre 3 2 (rightKIdx 3 (['A', 'A', 'A', 'A', 'A'] : List Char).length 2) :=
  c9_attempt_precondition 3 ['A', 'A', 'A', 'A', 'A'] 2 (by decide) (by decide) (by decide)

end SGA
